/-
Verification of the heap-allocator core of the dbos kernel.

The definitions below are a shallow embedding of `src/allocator.rs` and
`src/allocator/bump.rs`. Machine integers (`usize` on the x86_64 target)
are modelled as `Nat` with explicit `% 2^64` at the points where the Rust
code can wrap, and `checked_add` is modelled by an `Option`-returning
addition. Fallible operations return `Option` / `Except`.
-/
import Mathlib

/-- Bitwise complement of a 64-bit `usize` value: `!x` in Rust flips all 64
bits, which numerically is `2^64 - 1 - x` for `x < 2^64`. -/
def usizeNot (x : Nat) : Nat := 2 ^ 64 - 1 - x % 2 ^ 64

/-- Model of `usize::checked_add`: `some (a + b)` unless the sum overflows
64 bits, in which case `none`. -/
def checked_add (a b : Nat) : Option Nat :=
  if a + b < 2 ^ 64 then some (a + b) else none

/-- Translation of `align_up` from `src/allocator.rs`:
`(addr + align - 1) & !(align - 1)`. The two inner subtractions are exact
(never borrow) for every `align ≥ 1`, which `core::alloc::Layout`
guarantees; the addition is 64-bit wrapping, modelled by `% 2^64`. -/
def align_up (addr align : Nat) : Nat :=
  Nat.land ((addr + align - 1) % 2 ^ 64) (usizeNot (align - 1))

/-- State of the bump allocator, from `src/allocator/bump.rs`:
heap bounds, the bump cursor `next`, and the outstanding allocation
counter `allocations`. -/
structure BumpAllocator where
  heap_start : Nat
  heap_end : Nat
  next : Nat
  allocations : Nat
deriving DecidableEq

/-- Translation of `BumpAllocator::new`: the all-zero state. -/
def BumpAllocator.new : BumpAllocator := ⟨0, 0, 0, 0⟩

/-- Translation of `BumpAllocator::init`: record the heap bounds and put the
cursor at the start. The sum `heap_start + heap_size` is 64-bit wrapping. -/
def BumpAllocator.init (s : BumpAllocator) (heap_start heap_size : Nat) :
    BumpAllocator :=
  { s with
    heap_start := heap_start
    heap_end := (heap_start + heap_size) % 2 ^ 64
    next := heap_start }

/-- Translation of `alloc` for `Locked<BumpAllocator>`: align the cursor up,
add the size with `checked_add` (overflow fails), fail when the end exceeds
`heap_end`, otherwise commit the new cursor and bump the counter. A `none`
result models the null pointer returned on failure. The counter increment
`allocations += 1` is 64-bit wrapping. -/
def BumpAllocator.alloc (s : BumpAllocator) (size align : Nat) :
    Option Nat × BumpAllocator :=
  let alloc_start := align_up s.next align
  match checked_add alloc_start size with
  | none => (none, s)
  | some alloc_end =>
    if alloc_end > s.heap_end then (none, s)
    else (some alloc_start,
      { s with
        next := alloc_end
        allocations := (s.allocations + 1) % 2 ^ 64 })

/-- Translation of `dealloc` for `Locked<BumpAllocator>`: decrement the
counter (`allocations -= 1`, a 64-bit wrapping subtraction) and, when it
reaches zero, reset the cursor to `heap_start`. The pointer and layout
arguments are ignored by the source, so they are omitted here. -/
def BumpAllocator.dealloc (s : BumpAllocator) : BumpAllocator :=
  let a := (s.allocations + (2 ^ 64 - 1)) % 2 ^ 64
  if a = 0 then { s with allocations := a, next := s.heap_start }
  else { s with allocations := a }

/-- Run a list of allocation requests `(size, align)` in order, demanding
that every single one succeeds; result is `none` as soon as one fails. -/
def runAllocs : BumpAllocator → List (Nat × Nat) → Option BumpAllocator
  | s, [] => some s
  | s, (size, align) :: rest =>
    match s.alloc size align with
    | (some _, s') => runAllocs s' rest
    | (none, _) => none

/-- Apply `dealloc` to a state `n` times. -/
def deallocN (s : BumpAllocator) (n : Nat) : BumpAllocator :=
  BumpAllocator.dealloc^[n] s

/-- The bump-allocator bounds invariant: `heap_start ≤ next ≤ heap_end`. -/
def BumpInv (s : BumpAllocator) : Prop :=
  s.heap_start ≤ s.next ∧ s.next ≤ s.heap_end

instance (s : BumpAllocator) : Decidable (BumpInv s) := by
  unfold BumpInv; infer_instance

/-- Modelled from the spec: `fixed_size_block.rs` is not present under
`src/` (only the `ALLOCATOR` static in `src/allocator.rs` selects it);
spec 4.4 fixes an ascending power-of-two size-class table with smallest
class 8. -/
def BLOCK_SIZES : List Nat := [8, 16, 32, 64, 128, 256, 512, 1024, 2048]

/-- Modelled from the spec: the alloc-side class selection of the
fixed-size-block allocator: pick the smallest class whose size is at
least `size` and whose size, used as its own natural alignment, satisfies
`align`. -/
def allocListIndex (size align : Nat) : Option Nat :=
  BLOCK_SIZES.findIdx? (fun bs => decide (size ≤ bs) && decide (align ≤ bs))

/-- Modelled from the spec: the dealloc-side class selection: recompute
the class via the identical selection rule applied to `(size, align)`. -/
def deallocListIndex (size align : Nat) : Option Nat :=
  BLOCK_SIZES.findIdx? (fun bs => decide (size ≤ bs) && decide (align ≤ bs))

/-- Modelled from the spec: an operation delegated to the fallback
(linked-list) allocator, recorded abstractly: `alloc size align` or
`dealloc ptr size align`. -/
inductive FallbackOp where
  | alloc : Nat → Nat → FallbackOp
  | dealloc : Nat → Nat → Nat → FallbackOp
deriving DecidableEq

/-- Modelled from the spec: state of the fixed-size-block allocator: one
free list of block addresses per size class, plus the fallback allocator
abstracted as the log of operations delegated to it. -/
structure FixedSizeBlockAllocator where
  list_heads : List (List Nat)
  fallback_ops : List FallbackOp
deriving DecidableEq

/-- Modelled from the spec: `alloc(size, align)` of the fixed-size-block
allocator: choose the class; pop the head of its free list when nonempty;
when the list is empty carve a block of exactly the class size from the
fallback; when no class qualifies delegate the request unchanged to the
fallback. The oracle `fb` supplies the fallback allocator's answers. -/
def fsbAlloc (fb : Nat → Nat → Option Nat) (s : FixedSizeBlockAllocator)
    (size align : Nat) : Option Nat × FixedSizeBlockAllocator :=
  match allocListIndex size align with
  | some i =>
    match s.list_heads.getD i [] with
    | p :: rest => (some p, { s with list_heads := s.list_heads.set i rest })
    | [] =>
      (fb (BLOCK_SIZES.getD i 0) (BLOCK_SIZES.getD i 0),
        { s with fallback_ops :=
          FallbackOp.alloc (BLOCK_SIZES.getD i 0) (BLOCK_SIZES.getD i 0) ::
            s.fallback_ops })
  | none =>
    (fb size align,
      { s with fallback_ops := FallbackOp.alloc size align :: s.fallback_ops })

/-- Modelled from the spec: `dealloc(ptr, layout)` of the fixed-size-block
allocator: recompute the class with the identical rule and push the block
onto that class's free list; when no class applies, forward the free to
the fallback allocator. -/
def fsbDealloc (s : FixedSizeBlockAllocator) (p size align : Nat) :
    FixedSizeBlockAllocator :=
  match deallocListIndex size align with
  | some i =>
    { s with list_heads := s.list_heads.set i (p :: s.list_heads.getD i []) }
  | none =>
    { s with fallback_ops := FallbackOp.dealloc p size align :: s.fallback_ops }

/-- Heap start constant from `src/allocator.rs`. -/
def HEAP_START : Nat := 0x444444440000

/-- Heap size constant (100 KiB) from `src/allocator.rs`. -/
def HEAP_SIZE : Nat := 100 * 1024

/-- The x86_64 page-table flags used by `init_heap`:
PRESENT (bit 0) plus WRITABLE (bit 1). -/
def PRESENT_WRITABLE : Nat := 3

/-- The mapping errors of the external `x86_64` crate's `MapToError`. -/
inductive MapToError where
  | frameAllocationFailed : MapToError
  | parentEntryHugePage : MapToError
  | pageAlreadyMapped : MapToError
deriving DecidableEq

/-- Observable effects of `init_heap`: the pages mapped so far (page
index, flags) and whether the global allocator has been initialized, and
with which bounds. -/
structure HeapInitState where
  mapped : List (Nat × Nat)
  allocator_init : Option (Nat × Nat)
deriving DecidableEq

/-- The inclusive page range of `init_heap`: `Page::containing_address`
divides by the 4096-byte page size, and `Page::range_inclusive` runs from
the page of `HEAP_START` to the page of `HEAP_START + HEAP_SIZE - 1`. -/
def page_range : List Nat :=
  (List.range
    ((HEAP_START + HEAP_SIZE - 1) / 4096 - HEAP_START / 4096 + 1)).map
    (fun i => HEAP_START / 4096 + i)

/-- The page loop of `init_heap`: for each page, `allocate_frame` (the
`frames` oracle gives the i-th call's result; `none` models exhaustion,
turned into `FrameAllocationFailed`), then `map_to` with PRESENT|WRITABLE
(the `mapRes` oracle gives its error, if any); any failure returns the
error at once, skipping the rest. -/
def initHeapLoop (frames : Nat → Option Nat)
    (mapRes : Nat → Nat → Option MapToError) :
    Nat → HeapInitState → List Nat →
      Except MapToError Unit × HeapInitState
  | _, st, [] => (Except.ok (), st)
  | idx, st, page :: rest =>
    match frames idx with
    | none => (Except.error MapToError.frameAllocationFailed, st)
    | some frame =>
      match mapRes page frame with
      | some e => (Except.error e, st)
      | none =>
        initHeapLoop frames mapRes (idx + 1)
          { st with mapped := (page, PRESENT_WRITABLE) :: st.mapped } rest

/-- Translation of `init_heap` from `src/allocator.rs`, with the external
mapper and frame allocator as oracles: walk the page range mapping every
page, then (and only on success of the whole loop) initialize the global
allocator with `(HEAP_START, HEAP_SIZE)`. -/
def init_heap (frames : Nat → Option Nat)
    (mapRes : Nat → Nat → Option MapToError) :
    Except MapToError Unit × HeapInitState :=
  match initHeapLoop frames mapRes 0 ⟨[], none⟩ page_range with
  | (Except.ok _, st) =>
    (Except.ok (), { st with allocator_init := some (HEAP_START, HEAP_SIZE) })
  | (Except.error e, st) => (Except.error e, st)

/-- Bitwise AND with the mask `2^64 - 2^k` clears the low `k` bits: on
values below `2^64` it rounds down to a multiple of `2^k`. -/
theorem land_mask (x k : Nat) (hk : k ≤ 64) (hx : x < 2 ^ 64) :
    Nat.land x (2 ^ 64 - 2 ^ k) = 2 ^ k * (x / 2 ^ k) := by
  have hmask : (2 : Nat) ^ 64 - 2 ^ k = (2 ^ (64 - k) - 1) <<< k := by
    rw [Nat.shiftLeft_eq, Nat.sub_mul, one_mul, ← pow_add]
    rw [Nat.sub_add_cancel hk]
  have hrhs : 2 ^ k * (x / 2 ^ k) = (x >>> k) <<< k := by
    rw [Nat.shiftRight_eq_div_pow, Nat.shiftLeft_eq, Nat.mul_comm]
  rw [hmask, hrhs]
  apply Nat.eq_of_testBit_eq
  intro i
  show (x &&& ((2 ^ (64 - k) - 1) <<< k)).testBit i = (x >>> k <<< k).testBit i
  rw [Nat.testBit_land, Nat.testBit_shiftLeft, Nat.testBit_shiftLeft,
    Nat.testBit_shiftRight, Nat.testBit_two_pow_sub_one]
  by_cases hik : k ≤ i
  · by_cases hi64 : i < 64
    · have h1 : i - k < 64 - k := by omega
      have h2 : k + (i - k) = i := by omega
      simp [hik, h1, h2, Bool.and_comm]
    · have hxi : x.testBit i = false := by
        apply Nat.testBit_lt_two_pow
        calc x < 2 ^ 64 := hx
        _ ≤ 2 ^ i := Nat.pow_le_pow_right (by norm_num) (by omega)
      have h1 : ¬ (i - k < 64 - k) := by omega
      have h2 : k + (i - k) = i := by omega
      simp [hxi, h1, h2]
  · simp [hik]

/-- The complement of the low-bits mask `2^k - 1` is `2^64 - 2^k`. -/
theorem usizeNot_pow2 (k : Nat) (hk : k ≤ 64) :
    usizeNot (2 ^ k - 1) = 2 ^ 64 - 2 ^ k := by
  have h1 : (1 : Nat) ≤ 2 ^ k := Nat.one_le_two_pow
  have h2 : (2 : Nat) ^ k ≤ 2 ^ 64 := Nat.pow_le_pow_right (by norm_num) hk
  unfold usizeNot
  rw [Nat.mod_eq_of_lt (by omega)]
  omega

/-- Closed form of `align_up` at a power-of-two alignment. -/
theorem align_up_pow2 (addr k : Nat) (hk : k ≤ 64) :
    align_up addr (2 ^ k) =
      2 ^ k * (((addr + 2 ^ k - 1) % 2 ^ 64) / 2 ^ k) := by
  unfold align_up
  rw [usizeNot_pow2 k hk]
  exact land_mask _ k hk (Nat.mod_lt _ (by norm_num))

/-- Closed form of `align_up` when the intermediate sum does not wrap. -/
theorem align_up_pow2_of_no_overflow (addr k : Nat) (hk : k ≤ 64)
    (hno : addr + 2 ^ k ≤ 2 ^ 64) :
    align_up addr (2 ^ k) = 2 ^ k * ((addr + 2 ^ k - 1) / 2 ^ k) := by
  have h1 : (1 : Nat) ≤ 2 ^ k := Nat.one_le_two_pow
  rw [align_up_pow2 addr k hk, Nat.mod_eq_of_lt (by omega)]

/-- The result of `align_up` at a power-of-two alignment always fits in
64 bits. -/
theorem align_up_lt (addr k : Nat) (hk : k ≤ 64) :
    align_up addr (2 ^ k) < 2 ^ 64 := by
  rw [align_up_pow2 addr k hk]
  calc 2 ^ k * (((addr + 2 ^ k - 1) % 2 ^ 64) / 2 ^ k)
      ≤ (addr + 2 ^ k - 1) % 2 ^ 64 := by
        rw [Nat.mul_comm]; exact Nat.div_mul_le_self _ _
  _ < 2 ^ 64 := Nat.mod_lt _ (by norm_num)

/-- Without wrap-around, `align_up` does not move the address backwards. -/
theorem align_up_ge (addr k : Nat) (hk : k ≤ 64)
    (hno : addr + 2 ^ k ≤ 2 ^ 64) : addr ≤ align_up addr (2 ^ k) := by
  have h1 : (1 : Nat) ≤ 2 ^ k := Nat.one_le_two_pow
  rw [align_up_pow2_of_no_overflow addr k hk hno]
  have hdm := Nat.div_add_mod (addr + 2 ^ k - 1) (2 ^ k)
  have hr : (addr + 2 ^ k - 1) % 2 ^ k < 2 ^ k := Nat.mod_lt _ (by positivity)
  set q := (addr + 2 ^ k - 1) / 2 ^ k with hq
  set r := (addr + 2 ^ k - 1) % 2 ^ k with hr2
  omega

/-- Characterization of the successful branch of `BumpAllocator.alloc`. -/
theorem bump_alloc_success (s : BumpAllocator) (size align : Nat)
    (h1 : align_up s.next align + size < 2 ^ 64)
    (h2 : align_up s.next align + size ≤ s.heap_end) :
    s.alloc size align = (some (align_up s.next align),
      { s with next := align_up s.next align + size
               allocations := (s.allocations + 1) % 2 ^ 64 }) := by
  unfold BumpAllocator.alloc checked_add
  simp only [if_pos h1]
  simp [Nat.not_lt.mpr h2]

/-- Characterization of the failing branches of `BumpAllocator.alloc`. -/
theorem bump_alloc_fail (s : BumpAllocator) (size align : Nat)
    (h : 2 ^ 64 ≤ align_up s.next align + size ∨
      s.heap_end < align_up s.next align + size) :
    s.alloc size align = (none, s) := by
  unfold BumpAllocator.alloc checked_add
  dsimp only
  rcases Nat.lt_or_ge (align_up s.next align + size) (2 ^ 64) with hlt | hge
  · have hend : s.heap_end < align_up s.next align + size := by
      rcases h with h | h
      · omega
      · exact h
    simp only [if_pos hlt]
    simp [hend]
  · have hnot : ¬ (align_up s.next align + size < 2 ^ 64) := Nat.not_lt.mpr hge
    rw [if_neg hnot]

/-- C1: `alloc(size, align)` aligns the cursor `next` up with the formula
`(next + align - 1) & !(align - 1)` (the function `align_up`), computes
`end = aligned_start + size`, signals failure exactly when that addition
overflows 64 bits or `end > heap_end` — leaving `next` and the allocation
counter unchanged — and otherwise sets `next = end`, increments the
counter by one, and returns `aligned_start`. -/
theorem bump_alloc_spec (s : BumpAllocator) (size align : Nat) :
    ((2 ^ 64 ≤ align_up s.next align + size ∨
        s.heap_end < align_up s.next align + size) →
      s.alloc size align = (none, s)) ∧
    (align_up s.next align + size < 2 ^ 64 →
      align_up s.next align + size ≤ s.heap_end →
      s.allocations + 1 < 2 ^ 64 →
      s.alloc size align = (some (align_up s.next align),
        { s with next := align_up s.next align + size
                 allocations := s.allocations + 1 })) := by
  constructor
  · exact fun h => bump_alloc_fail s size align h
  · intro h1 h2 hc
    rw [bump_alloc_success s size align h1 h2, Nat.mod_eq_of_lt hc]

/-- Witness for C1: on a 4096-byte heap at 4096 with an empty cursor,
allocating 100 bytes with alignment 1 succeeds, returns the cursor, and
advances it by 100. -/
theorem bump_alloc_spec_witness :
    (⟨4096, 8192, 4096, 0⟩ : BumpAllocator).alloc 100 1 =
      (some 4096, ⟨4096, 8192, 4196, 1⟩) := by
  have h := (bump_alloc_spec ⟨4096, 8192, 4096, 0⟩ 100 1).2
    (by decide) (by decide) (by decide)
  rw [h]
  decide

/-- C2: for a power-of-two alignment and a size within the remaining heap,
a successful `alloc(size, align)` returns a pointer `p` that is a multiple
of the alignment and satisfies `p + size ≤ heap_end`. -/
theorem bump_alloc_aligned_in_bounds (s : BumpAllocator) (size k p : Nat)
    (sf : BumpAllocator) (hk : k < 64)
    (_hsize : size ≤ s.heap_end - s.next)
    (hsucc : s.alloc size (2 ^ k) = (some p, sf)) :
    p % 2 ^ k = 0 ∧ p + size ≤ s.heap_end := by
  rcases Nat.lt_or_ge (align_up s.next (2 ^ k) + size) (2 ^ 64) with h1 | h1
  · rcases le_or_lt (align_up s.next (2 ^ k) + size) s.heap_end with h2 | h2
    · rw [bump_alloc_success s size (2 ^ k) h1 h2] at hsucc
      injection hsucc with hfst hsnd
      injection hfst with hp
      subst hp
      refine ⟨?_, h2⟩
      rw [align_up_pow2 s.next k (by omega)]
      exact Nat.mul_mod_right _ _
    · rw [bump_alloc_fail s size (2 ^ k) (Or.inr h2)] at hsucc
      exact absurd hsucc (by simp)
  · rw [bump_alloc_fail s size (2 ^ k) (Or.inl h1)] at hsucc
    exact absurd hsucc (by simp)

/-- Witness for C2: on a 4096-byte heap at 4096, allocating 100 bytes with
alignment 8 yields a pointer that is a multiple of 8 and stays in bounds. -/
theorem bump_alloc_aligned_in_bounds_witness :
    4096 % 2 ^ 3 = 0 ∧ 4096 + 100 ≤ 8192 :=
  bump_alloc_aligned_in_bounds ⟨4096, 8192, 4096, 0⟩ 100 3 4096
    ⟨4096, 8192, 4196, 1⟩ (by decide) (by decide) (by decide)

/-- C3 (code evidence): `dealloc` on a state whose outstanding counter is
already zero silently wraps the counter to `2^64 - 1`; the unchecked
`allocations -= 1` has no underflow guard (release-build `usize`
semantics). -/
theorem bump_dealloc_underflow_wraps :
    BumpAllocator.dealloc ⟨4096, 8192, 4096, 0⟩ =
      ⟨4096, 8192, 4096, 2 ^ 64 - 1⟩ := by decide

/-- C10: a zero-size request with power-of-two alignment succeeds whenever
the aligned cursor does not pass `heap_end`: it returns the aligned cursor,
moves `next` only up to that aligned address (reserving no bytes beyond
it), and still increments the outstanding allocation counter by one. -/
theorem bump_alloc_zero_size (s : BumpAllocator) (k : Nat) (hk : k ≤ 64)
    (hle : align_up s.next (2 ^ k) ≤ s.heap_end)
    (hc : s.allocations + 1 < 2 ^ 64) :
    s.alloc 0 (2 ^ k) = (some (align_up s.next (2 ^ k)),
      { s with next := align_up s.next (2 ^ k)
               allocations := s.allocations + 1 }) := by
  have h1 : align_up s.next (2 ^ k) + 0 < 2 ^ 64 := by
    rw [Nat.add_zero]; exact align_up_lt s.next k hk
  have h2 : align_up s.next (2 ^ k) + 0 ≤ s.heap_end := by
    rw [Nat.add_zero]; exact hle
  rw [bump_alloc_success s 0 (2 ^ k) h1 h2, Nat.mod_eq_of_lt hc, Nat.add_zero]

/-- Witness for C10: a zero-size, 8-byte-aligned request on a fresh heap
at 4100 succeeds, returns the aligned cursor 4104, and raises the counter
to 1 while reserving nothing. -/
theorem bump_alloc_zero_size_witness :
    (⟨4100, 8192, 4100, 0⟩ : BumpAllocator).alloc 0 (2 ^ 3) =
      (some (align_up 4100 (2 ^ 3)), ⟨4100, 8192, align_up 4100 (2 ^ 3), 1⟩) :=
  bump_alloc_zero_size ⟨4100, 8192, 4100, 0⟩ 3 (by decide) (by decide)
    (by decide)

/-- A successful `alloc` leaves the heap bounds alone and bumps the
counter by one (as 64-bit wrapping arithmetic). -/
theorem bump_alloc_some_state (s : BumpAllocator) (size align p : Nat)
    (sf : BumpAllocator) (h : s.alloc size align = (some p, sf)) :
    sf.heap_start = s.heap_start ∧ sf.heap_end = s.heap_end ∧
    sf.allocations = (s.allocations + 1) % 2 ^ 64 := by
  rcases Nat.lt_or_ge (align_up s.next align + size) (2 ^ 64) with h1 | h1
  · rcases le_or_lt (align_up s.next align + size) s.heap_end with h2 | h2
    · rw [bump_alloc_success s size align h1 h2] at h
      injection h with hfst hsnd
      subst hsnd
      exact ⟨rfl, rfl, rfl⟩
    · rw [bump_alloc_fail s size align (Or.inr h2)] at h
      exact absurd h (by simp)
  · rw [bump_alloc_fail s size align (Or.inl h1)] at h
    exact absurd h (by simp)

/-- Running a list of requests in which every allocation succeeds
preserves `heap_start` and raises the counter by the list length. -/
theorem runAllocs_state (reqs : List (Nat × Nat)) :
    ∀ s s' : BumpAllocator, runAllocs s reqs = some s' →
      s'.heap_start = s.heap_start ∧
      (s.allocations < 2 ^ 64 →
        s'.allocations = (s.allocations + reqs.length) % 2 ^ 64) := by
  induction reqs with
  | nil =>
    intro s s' h
    injection h with h
    subst h
    exact ⟨rfl, fun hlt => by rw [List.length_nil, Nat.add_zero,
      Nat.mod_eq_of_lt hlt]⟩
  | cons hd rest ih =>
    intro s s' h
    obtain ⟨size, align⟩ := hd
    unfold runAllocs at h
    rcases halloc : s.alloc size align with ⟨r, s1⟩
    rw [halloc] at h
    cases r with
    | none => exact absurd h (by simp)
    | some p =>
      obtain ⟨hhs, hhe, hcnt⟩ := bump_alloc_some_state s size align p s1 halloc
      obtain ⟨ihs, ihc⟩ := ih s1 s' h
      refine ⟨by rw [ihs, hhs], fun hlt => ?_⟩
      have h1 : s1.allocations < 2 ^ 64 := by
        rw [hcnt]; exact Nat.mod_lt _ (by norm_num)
      rw [ihc h1, hcnt, Nat.mod_add_mod, List.length_cons]
      congr 1
      omega

/-- Unfolding lemma for `BumpAllocator.dealloc`. -/
theorem bump_dealloc_def (s : BumpAllocator) :
    s.dealloc = if (s.allocations + (2 ^ 64 - 1)) % 2 ^ 64 = 0
      then { s with allocations := (s.allocations + (2 ^ 64 - 1)) % 2 ^ 64
                    next := s.heap_start }
      else { s with allocations := (s.allocations + (2 ^ 64 - 1)) % 2 ^ 64 } :=
  rfl

/-- Equation lemma: zero deallocations change nothing. -/
theorem deallocN_zero (s : BumpAllocator) : deallocN s 0 = s := rfl

/-- Equation lemma: `n + 1` deallocations are one `dealloc` then `n`. -/
theorem deallocN_succ (s : BumpAllocator) (n : Nat) :
    deallocN s (n + 1) = deallocN s.dealloc n :=
  Function.iterate_succ_apply BumpAllocator.dealloc n s

/-- Draining `n` deallocations from a counter holding `n % 2^64` empties
the counter and resets the cursor (when at least one `dealloc` runs). -/
theorem deallocN_drain (n : Nat) :
    ∀ s : BumpAllocator, s.allocations = n % 2 ^ 64 →
      (deallocN s n).allocations = 0 ∧
      (deallocN s n).heap_start = s.heap_start ∧
      (deallocN s n).next = if n = 0 then s.next else s.heap_start := by
  induction n with
  | zero =>
    intro s hcnt
    rw [deallocN_zero]
    refine ⟨by simpa using hcnt, rfl, by simp⟩
  | succ n ih =>
    intro s hcnt
    have hstep : s.dealloc.allocations = n % 2 ^ 64 ∧
        s.dealloc.heap_start = s.heap_start ∧
        (n = 0 → s.dealloc.next = s.heap_start) := by
      have harith : (n + 1 + (2 ^ 64 - 1)) % 2 ^ 64 = n % 2 ^ 64 := by
        have h64 : n + 1 + (2 ^ 64 - 1) = n + 2 ^ 64 := by omega
        rw [h64, Nat.add_mod_right]
      rw [bump_dealloc_def, hcnt, Nat.mod_add_mod, harith]
      by_cases hz : n % 2 ^ 64 = 0
      · rw [if_pos hz]
        exact ⟨rfl, rfl, fun _ => rfl⟩
      · rw [if_neg hz]
        refine ⟨rfl, rfl, fun hn0 => ?_⟩
        subst hn0
        simp at hz
    obtain ⟨hc1, hh1, hn1⟩ := hstep
    obtain ⟨ic, ih2, in2⟩ := ih s.dealloc hc1
    rw [deallocN_succ]
    refine ⟨ic, by rw [ih2, hh1], ?_⟩
    rw [if_neg (Nat.succ_ne_zero n), in2]
    by_cases hn : n = 0
    · rw [if_pos hn]
      exact hn1 hn
    · rw [if_neg hn, hh1]

/-- C4: starting from a freshly initialized bump allocator, any sequence of
successful allocations followed by the same number of deallocations ends
with the outstanding counter at 0 and the cursor back at `heap_start`;
moreover a single `dealloc` resets the cursor to `heap_start` exactly when
it brings the counter to zero and leaves the cursor unchanged otherwise. -/
theorem bump_alloc_dealloc_balance :
    (∀ (hs hsz : Nat) (reqs : List (Nat × Nat)) (s1 : BumpAllocator),
      runAllocs (BumpAllocator.new.init hs hsz) reqs = some s1 →
      (deallocN s1 reqs.length).allocations = 0 ∧
      (deallocN s1 reqs.length).next = hs) ∧
    (∀ s : BumpAllocator,
      s.dealloc.next =
        if s.dealloc.allocations = 0 then s.heap_start else s.next) := by
  constructor
  · intro hs hsz reqs s1 hrun
    have hs0 : (BumpAllocator.new.init hs hsz).allocations = 0 := rfl
    have hs0' : (BumpAllocator.new.init hs hsz).heap_start = hs := rfl
    obtain ⟨h1, h2⟩ := runAllocs_state reqs _ s1 hrun
    have hcnt : s1.allocations = reqs.length % 2 ^ 64 := by
      rw [h2 (by rw [hs0]; norm_num), hs0, Nat.zero_add]
    obtain ⟨hc, hh, hn⟩ := deallocN_drain reqs.length s1 hcnt
    refine ⟨hc, ?_⟩
    rw [hn]
    by_cases hz : reqs.length = 0
    · rw [if_pos hz]
      have hnil : reqs = [] := List.length_eq_zero.mp hz
      subst hnil
      injection hrun with hrun
      rw [← hrun]
      rfl
    · rw [if_neg hz, h1, hs0']
  · intro s
    by_cases hz : (s.allocations + (2 ^ 64 - 1)) % 2 ^ 64 = 0
    · have h1 : s.dealloc = { s with
          allocations := (s.allocations + (2 ^ 64 - 1)) % 2 ^ 64
          next := s.heap_start } := by rw [bump_dealloc_def, if_pos hz]
      rw [h1]
      show s.heap_start = if (s.allocations + (2 ^ 64 - 1)) % 2 ^ 64 = 0
        then s.heap_start else s.next
      rw [if_pos hz]
    · have h1 : s.dealloc = { s with
          allocations := (s.allocations + (2 ^ 64 - 1)) % 2 ^ 64 } := by
        rw [bump_dealloc_def, if_neg hz]
      rw [h1]
      show s.next = if (s.allocations + (2 ^ 64 - 1)) % 2 ^ 64 = 0
        then s.heap_start else s.next
      rw [if_neg hz]

/-- Witness for C4: one 100-byte allocation on a fresh 4096-byte heap at
4096, then one deallocation: the counter drains to 0 and the cursor
returns to 4096. -/
theorem bump_alloc_dealloc_balance_witness :
    (deallocN ⟨4096, 8192, 4196, 1⟩ 1).allocations = 0 ∧
    (deallocN ⟨4096, 8192, 4196, 1⟩ 1).next = 4096 := by
  have h := bump_alloc_dealloc_balance.1 4096 4096 [(100, 1)]
    ⟨4096, 8192, 4196, 1⟩ (by decide)
  simpa using h

/-- C5 counterexample: with the heap at the top of the address space, a
zero-size request at alignment `2^63` (a valid `Layout`) wraps inside
`align_up`, succeeds, and drags `next` below `heap_start`: the bounds
invariant is not preserved by every `alloc` on every invariant state. -/
theorem bump_inv_alloc_violation :
    BumpInv ⟨2 ^ 63 + 2, 2 ^ 63 + 2, 2 ^ 63 + 2, 0⟩ ∧
    ¬ BumpInv ((⟨2 ^ 63 + 2, 2 ^ 63 + 2, 2 ^ 63 + 2, 0⟩ :
      BumpAllocator).alloc 0 (2 ^ 63)).2 := by
  decide

/-- C5 (amended): `heap_start ≤ next ≤ heap_end` holds after
`init(heap_start, heap_size)` whenever `heap_start + heap_size` does not
overflow, is preserved by every `alloc` whose alignment computation
`next + align - 1` does not overflow 64 bits, and is preserved by every
`dealloc` unconditionally. -/
theorem bump_inv_preserved :
    (∀ hs hsz : Nat, hs + hsz < 2 ^ 64 →
      BumpInv (BumpAllocator.new.init hs hsz)) ∧
    (∀ (s : BumpAllocator) (size k : Nat), k ≤ 64 → BumpInv s →
      s.next + 2 ^ k ≤ 2 ^ 64 → BumpInv (s.alloc size (2 ^ k)).2) ∧
    (∀ s : BumpAllocator, BumpInv s → BumpInv s.dealloc) := by
  refine ⟨?_, ?_, ?_⟩
  · intro hs hsz h
    unfold BumpInv
    constructor
    · exact le_refl hs
    · show hs ≤ (hs + hsz) % 2 ^ 64
      rw [Nat.mod_eq_of_lt h]
      omega
  · intro s size k hk hInv hno
    rcases Nat.lt_or_ge (align_up s.next (2 ^ k) + size) (2 ^ 64) with h1 | h1
    · rcases le_or_lt (align_up s.next (2 ^ k) + size) s.heap_end with h2 | h2
      · rw [bump_alloc_success s size (2 ^ k) h1 h2]
        have hge := align_up_ge s.next k hk hno
        obtain ⟨ha, hb⟩ := hInv
        exact ⟨le_trans ha (le_trans hge (Nat.le_add_right _ _)), h2⟩
      · rw [bump_alloc_fail s size (2 ^ k) (Or.inr h2)]
        exact hInv
    · rw [bump_alloc_fail s size (2 ^ k) (Or.inl h1)]
      exact hInv
  · intro s hInv
    obtain ⟨ha, hb⟩ := hInv
    by_cases hz : (s.allocations + (2 ^ 64 - 1)) % 2 ^ 64 = 0
    · have h1 : s.dealloc = { s with
          allocations := (s.allocations + (2 ^ 64 - 1)) % 2 ^ 64
          next := s.heap_start } := by rw [bump_dealloc_def, if_pos hz]
      rw [h1]
      exact ⟨le_refl _, le_trans ha hb⟩
    · have h1 : s.dealloc = { s with
          allocations := (s.allocations + (2 ^ 64 - 1)) % 2 ^ 64 } := by
        rw [bump_dealloc_def, if_neg hz]
      rw [h1]
      exact ⟨ha, hb⟩

/-- Witness for C5 (amended): the invariant holds after `init(4096, 4096)`,
after a 100-byte allocation on that heap, and after a `dealloc`. -/
theorem bump_inv_preserved_witness :
    BumpInv (BumpAllocator.new.init 4096 4096) ∧
    BumpInv ((⟨4096, 8192, 4096, 0⟩ : BumpAllocator).alloc 100 (2 ^ 0)).2 ∧
    BumpInv (BumpAllocator.dealloc ⟨4096, 8192, 4196, 1⟩) :=
  ⟨bump_inv_preserved.1 4096 4096 (by decide),
   bump_inv_preserved.2.1 ⟨4096, 8192, 4096, 0⟩ 100 0 (by decide) (by decide)
     (by decide),
   bump_inv_preserved.2.2 ⟨4096, 8192, 4196, 1⟩ (by decide)⟩

/-- C6 counterexample: at `addr = 2^64 - 1`, `align = 2` the add inside the
formula wraps to zero, so `align_up` returns 0, which is far below `addr`
rather than being the smallest multiple of 2 at or above it. -/
theorem align_up_wraps_at_top :
    align_up (2 ^ 64 - 1) 2 = 0 ∧
    ¬ (2 ^ 64 - 1 ≤ align_up (2 ^ 64 - 1) 2) := by
  decide

/-- C6 (amended): for every `addr` and power-of-two `align` such that
`addr + align - 1` does not overflow 64 bits, `align_up addr align` is the
smallest multiple of `align` that is greater than or equal to `addr`. -/
theorem align_up_least (addr k : Nat) (hk : k ≤ 64)
    (hno : addr + 2 ^ k ≤ 2 ^ 64) :
    2 ^ k ∣ align_up addr (2 ^ k) ∧ addr ≤ align_up addr (2 ^ k) ∧
    ∀ m : Nat, 2 ^ k ∣ m → addr ≤ m → align_up addr (2 ^ k) ≤ m := by
  have hpos : 0 < 2 ^ k := pow_pos (by norm_num) k
  refine ⟨?_, align_up_ge addr k hk hno, ?_⟩
  · rw [align_up_pow2_of_no_overflow addr k hk hno]
    exact Dvd.intro _ rfl
  · intro m hdvd hm
    obtain ⟨t, rfl⟩ := hdvd
    rw [align_up_pow2_of_no_overflow addr k hk hno]
    have hdiv : (addr + 2 ^ k - 1) / 2 ^ k ≤ t := by
      have h1 : addr + 2 ^ k - 1 ≤ 2 ^ k * t + (2 ^ k - 1) := by omega
      calc (addr + 2 ^ k - 1) / 2 ^ k
          ≤ (2 ^ k * t + (2 ^ k - 1)) / 2 ^ k := Nat.div_le_div_right h1
      _ = t + (2 ^ k - 1) / 2 ^ k := Nat.mul_add_div hpos t (2 ^ k - 1)
      _ = t := by rw [Nat.div_eq_of_lt (by omega), Nat.add_zero]
    exact Nat.mul_le_mul (Nat.le_refl _) hdiv

/-- Witness for C6 (amended): `align_up 100 8` is a multiple of 8, is at
least 100, and is at most the multiple-of-8 value 104. -/
theorem align_up_least_witness :
    2 ^ 3 ∣ align_up 100 (2 ^ 3) ∧ 100 ≤ align_up 100 (2 ^ 3) ∧
    align_up 100 (2 ^ 3) ≤ 104 :=
  ⟨(align_up_least 100 3 (by decide) (by decide)).1,
   (align_up_least 100 3 (by decide) (by decide)).2.1,
   (align_up_least 100 3 (by decide) (by decide)).2.2 104 (by decide)
     (by decide)⟩

/-- Alignment 1 never moves an address below `2^64`. -/
theorem align_up_one (x : Nat) (hx : x < 2 ^ 64) : align_up x 1 = x := by
  have h := align_up_pow2_of_no_overflow x 0 (by norm_num) (by omega)
  simpa using h

/-- An alignment-1 allocation that fits advances the cursor by `size` and
returns the old cursor. -/
theorem bump_alloc_one (hs he nx cnt size : Nat) (hnx : nx + size < 2 ^ 64)
    (hcnt : cnt + 1 < 2 ^ 64) (hfit : nx + size ≤ he) :
    (⟨hs, he, nx, cnt⟩ : BumpAllocator).alloc size 1 =
      (some nx, ⟨hs, he, nx + size, cnt + 1⟩) := by
  have hx : nx < 2 ^ 64 := by omega
  have hone : align_up (⟨hs, he, nx, cnt⟩ : BumpAllocator).next 1 = nx :=
    align_up_one nx hx
  have h1 : align_up (⟨hs, he, nx, cnt⟩ : BumpAllocator).next 1 + size <
      2 ^ 64 := by rw [hone]; omega
  have h2 : align_up (⟨hs, he, nx, cnt⟩ : BumpAllocator).next 1 + size ≤
      (⟨hs, he, nx, cnt⟩ : BumpAllocator).heap_end := by rw [hone]; exact hfit
  rw [bump_alloc_success _ size 1 h1 h2, hone]
  show (some nx, (⟨hs, he, nx + size, (cnt + 1) % 2 ^ 64⟩ : BumpAllocator)) =
    (some nx, ⟨hs, he, nx + size, cnt + 1⟩)
  rw [Nat.mod_eq_of_lt hcnt]

/-- An alignment-1 allocation that does not fit fails and leaves the state
unchanged. -/
theorem bump_alloc_one_fail (hs he nx cnt size : Nat) (hx : nx < 2 ^ 64)
    (hnofit : he < nx + size) :
    (⟨hs, he, nx, cnt⟩ : BumpAllocator).alloc size 1 =
      (none, ⟨hs, he, nx, cnt⟩) := by
  have hone : align_up (⟨hs, he, nx, cnt⟩ : BumpAllocator).next 1 = nx :=
    align_up_one nx hx
  apply bump_alloc_fail
  rw [hone]
  exact Or.inr hnofit

/-- Deallocating the last outstanding allocation zeroes the counter and
resets the cursor. -/
theorem bump_dealloc_last (hs he nx : Nat) :
    BumpAllocator.dealloc ⟨hs, he, nx, 1⟩ = ⟨hs, he, hs, 0⟩ := by
  have hz : ((1 : Nat) + (2 ^ 64 - 1)) % 2 ^ 64 = 0 := by
    rw [show (1 : Nat) + (2 ^ 64 - 1) = 2 ^ 64 by norm_num, Nat.mod_self]
  rw [bump_dealloc_def]
  show (if ((1 : Nat) + (2 ^ 64 - 1)) % 2 ^ 64 = 0
    then (⟨hs, he, hs, (1 + (2 ^ 64 - 1)) % 2 ^ 64⟩ : BumpAllocator)
    else ⟨hs, he, nx, (1 + (2 ^ 64 - 1)) % 2 ^ 64⟩) = ⟨hs, he, hs, 0⟩
  rw [if_pos hz, hz]

/-- C7: on a freshly initialized 4096-byte heap at `hs` (anywhere it fits
in the address space), allocating 100 bytes succeeds and returns
`heap_start`; allocating 4000 more bytes fails and changes nothing;
deallocating the single outstanding allocation zeroes the counter and
resets `next` to `heap_start`; after that, allocating 4000 bytes
succeeds. -/
theorem bump_scenario_4096 (hs : Nat) (hheap : hs + 4096 < 2 ^ 64) :
    BumpAllocator.new.init hs 4096 = ⟨hs, hs + 4096, hs, 0⟩ ∧
    (⟨hs, hs + 4096, hs, 0⟩ : BumpAllocator).alloc 100 1 =
      (some hs, ⟨hs, hs + 4096, hs + 100, 1⟩) ∧
    (⟨hs, hs + 4096, hs + 100, 1⟩ : BumpAllocator).alloc 4000 1 =
      (none, ⟨hs, hs + 4096, hs + 100, 1⟩) ∧
    BumpAllocator.dealloc ⟨hs, hs + 4096, hs + 100, 1⟩ =
      ⟨hs, hs + 4096, hs, 0⟩ ∧
    (⟨hs, hs + 4096, hs, 0⟩ : BumpAllocator).alloc 4000 1 =
      (some hs, ⟨hs, hs + 4096, hs + 4000, 1⟩) := by
  refine ⟨?_, ?_, ?_, ?_, ?_⟩
  · have h : BumpAllocator.new.init hs 4096 =
        ⟨hs, (hs + 4096) % 2 ^ 64, hs, 0⟩ := rfl
    rw [h, Nat.mod_eq_of_lt hheap]
  · have h := bump_alloc_one hs (hs + 4096) hs 0 100 (by omega)
      (by norm_num) (by omega)
    simpa using h
  · exact bump_alloc_one_fail hs (hs + 4096) (hs + 100) 1 4000 (by omega)
      (by omega)
  · exact bump_dealloc_last hs (hs + 4096) (hs + 100)
  · have h := bump_alloc_one hs (hs + 4096) hs 0 4000 (by omega)
      (by norm_num) (by omega)
    simpa using h

/-- Witness for C7: the scenario instantiated at `heap_start = 4096`. -/
theorem bump_scenario_4096_witness :
    BumpAllocator.new.init 4096 4096 = ⟨4096, 4096 + 4096, 4096, 0⟩ ∧
    (⟨4096, 4096 + 4096, 4096, 0⟩ : BumpAllocator).alloc 100 1 =
      (some 4096, ⟨4096, 4096 + 4096, 4096 + 100, 1⟩) ∧
    (⟨4096, 4096 + 4096, 4096 + 100, 1⟩ : BumpAllocator).alloc 4000 1 =
      (none, ⟨4096, 4096 + 4096, 4096 + 100, 1⟩) ∧
    BumpAllocator.dealloc ⟨4096, 4096 + 4096, 4096 + 100, 1⟩ =
      ⟨4096, 4096 + 4096, 4096, 0⟩ ∧
    (⟨4096, 4096 + 4096, 4096, 0⟩ : BumpAllocator).alloc 4000 1 =
      (some 4096, ⟨4096, 4096 + 4096, 4096 + 4000, 1⟩) :=
  bump_scenario_4096 4096 (by decide)

/-- C8: the fixed-size-block `dealloc` selects its size class by the
identical rule `alloc` uses, so pushing a freed block with the same
`(size, align)` it was allocated with lands in the class `alloc` selected;
and when no class qualifies, both `alloc` and `dealloc` delegate entirely
to the fallback allocator, leaving every class free list untouched. -/
theorem fsb_dealloc_matches_alloc (size align : Nat) :
    deallocListIndex size align = allocListIndex size align ∧
    (∀ (s : FixedSizeBlockAllocator) (p i : Nat),
      allocListIndex size align = some i →
      fsbDealloc s p size align = { s with
        list_heads := s.list_heads.set i (p :: s.list_heads.getD i []) }) ∧
    (allocListIndex size align = none →
      (∀ (s : FixedSizeBlockAllocator) (p : Nat),
        (fsbDealloc s p size align).list_heads = s.list_heads ∧
        (fsbDealloc s p size align).fallback_ops =
          FallbackOp.dealloc p size align :: s.fallback_ops) ∧
      (∀ (fb : Nat → Nat → Option Nat) (s : FixedSizeBlockAllocator),
        (fsbAlloc fb s size align).1 = fb size align ∧
        (fsbAlloc fb s size align).2.list_heads = s.list_heads ∧
        (fsbAlloc fb s size align).2.fallback_ops =
          FallbackOp.alloc size align :: s.fallback_ops)) := by
  have hsame : deallocListIndex size align = allocListIndex size align := rfl
  refine ⟨hsame, ?_, ?_⟩
  · intro s p i hidx
    unfold fsbDealloc
    rw [hsame, hidx]
  · intro hnone
    constructor
    · intro s p
      unfold fsbDealloc
      rw [hsame, hnone]
      exact ⟨rfl, rfl⟩
    · intro fb s
      unfold fsbAlloc
      rw [hnone]
      exact ⟨rfl, rfl, rfl⟩

/-- Witness for C8: a block freed with `(size, align) = (5, 4)` goes to
class 0 (block size 8), the class the identical alloc-side rule selects;
and for `(size, align) = (4000, 8)` no class qualifies so the free is
forwarded to the fallback log and the class lists stay untouched. -/
theorem fsb_dealloc_matches_alloc_witness :
    fsbDealloc ⟨[[40], [50]], []⟩ 777 5 4 = ⟨[[777, 40], [50]], []⟩ ∧
    (fsbDealloc ⟨[[40], [50]], []⟩ 888 4000 8).list_heads = [[40], [50]] := by
  constructor
  · have h := (fsb_dealloc_matches_alloc 5 4).2.1 ⟨[[40], [50]], []⟩ 777 0
      (by decide)
    rw [h]
    decide
  · have h := ((fsb_dealloc_matches_alloc 4000 8).2.2 (by decide)).1
      ⟨[[40], [50]], []⟩ 888
    exact h.1

/-- Invariant of the `init_heap` page loop: the loop never touches the
allocator-initialized flag, only extends the mapped list, and on overall
success has mapped every page of its input list with PRESENT|WRITABLE. -/
theorem initHeapLoop_spec (frames : Nat → Option Nat)
    (mapRes : Nat → Nat → Option MapToError) (ps : List Nat) :
    ∀ (idx : Nat) (st : HeapInitState) (r : Except MapToError Unit)
      (st' : HeapInitState),
      initHeapLoop frames mapRes idx st ps = (r, st') →
      st'.allocator_init = st.allocator_init ∧
      (∀ x, x ∈ st.mapped → x ∈ st'.mapped) ∧
      (r = Except.ok () →
        ∀ p, p ∈ ps → (p, PRESENT_WRITABLE) ∈ st'.mapped) := by
  induction ps with
  | nil =>
    intro idx st r st' h
    unfold initHeapLoop at h
    injection h with h1 h2
    subst h2
    exact ⟨rfl, fun x hx => hx, fun _ p hp => absurd hp (by simp)⟩
  | cons page rest ih =>
    intro idx st r st' h
    unfold initHeapLoop at h
    cases hf : frames idx with
    | none =>
      rw [hf] at h
      injection h with h1 h2
      subst h2
      refine ⟨rfl, fun x hx => hx, fun hok => ?_⟩
      rw [← h1] at hok
      exact absurd hok (by simp)
    | some frame =>
      rw [hf] at h
      cases hm : mapRes page frame with
      | some e =>
        simp only [hm] at h
        injection h with h1 h2
        subst h2
        refine ⟨rfl, fun x hx => hx, fun hok => ?_⟩
        rw [← h1] at hok
        exact absurd hok (by simp)
      | none =>
        simp only [hm] at h
        obtain ⟨ha, hmono, hpages⟩ := ih (idx + 1)
          { st with mapped := (page, PRESENT_WRITABLE) :: st.mapped } r st' h
        refine ⟨ha, ?_, ?_⟩
        · intro x hx
          exact hmono x (List.mem_cons_of_mem _ hx)
        · intro hok p hp
          rcases List.mem_cons.mp hp with hp | hp
          · subst hp
            exact hmono _ (List.mem_cons_self _ _)
          · exact hpages hok p hp

/-- Every address of the heap range lands, after division by the page
size, inside the inclusive page range of `init_heap`. -/
theorem page_of_heap_mem (a : Nat) (h1 : HEAP_START ≤ a)
    (h2 : a < HEAP_START + HEAP_SIZE) : a / 4096 ∈ page_range := by
  have hp0 : HEAP_START / 4096 ≤ a / 4096 := Nat.div_le_div_right h1
  have hp1 : a / 4096 ≤ (HEAP_START + HEAP_SIZE - 1) / 4096 :=
    Nat.div_le_div_right (by omega)
  simp only [page_range, List.mem_map, List.mem_range]
  refine ⟨a / 4096 - HEAP_START / 4096, by omega, by omega⟩

/-- C9: when `init_heap` succeeds, every page covering an address of
`[HEAP_START, HEAP_START + HEAP_SIZE)` has been mapped with the
PRESENT and WRITABLE flags and the global allocator is initialized with
`(HEAP_START, HEAP_SIZE)`; when allocating a backing frame or mapping any
page fails, `init_heap` returns that error and the allocator is left
uninitialized. -/
theorem init_heap_maps_before_init (frames : Nat → Option Nat)
    (mapRes : Nat → Nat → Option MapToError) :
    (∀ st : HeapInitState, init_heap frames mapRes = (Except.ok (), st) →
      st.allocator_init = some (HEAP_START, HEAP_SIZE) ∧
      ∀ a : Nat, HEAP_START ≤ a → a < HEAP_START + HEAP_SIZE →
        (a / 4096, PRESENT_WRITABLE) ∈ st.mapped) ∧
    (∀ (e : MapToError) (st : HeapInitState),
      init_heap frames mapRes = (Except.error e, st) →
      st.allocator_init = none) := by
  constructor
  · intro st h
    unfold init_heap at h
    rcases hl : initHeapLoop frames mapRes 0 ⟨[], none⟩ page_range
      with ⟨r, st0⟩
    rw [hl] at h
    cases r with
    | ok u =>
      cases u
      injection h with h1 h2
      subst h2
      obtain ⟨ha, hmono, hpages⟩ :=
        initHeapLoop_spec frames mapRes page_range 0 ⟨[], none⟩ _ _ hl
      constructor
      · rfl
      · intro a h1a h2a
        exact hpages rfl (a / 4096) (page_of_heap_mem a h1a h2a)
    | error e =>
      injection h with h1 h2
      exact absurd h1 (by simp)
  · intro e st h
    unfold init_heap at h
    rcases hl : initHeapLoop frames mapRes 0 ⟨[], none⟩ page_range
      with ⟨r, st0⟩
    rw [hl] at h
    cases r with
    | ok u =>
      cases u
      injection h with h1 h2
      exact absurd h1 (by simp)
    | error e0 =>
      injection h with h1 h2
      subst h2
      obtain ⟨ha, hmono, hpages⟩ :=
        initHeapLoop_spec frames mapRes page_range 0 ⟨[], none⟩ _ _ hl
      exact ha

/-- Witness for C9: with a frame allocator that always hands out frame 0
and a mapper that never fails, `init_heap` initializes the allocator with
`(HEAP_START, HEAP_SIZE)` and has mapped the first heap page with
PRESENT|WRITABLE. -/
theorem init_heap_maps_before_init_witness :
    (init_heap (fun _ => some 0) (fun _ _ => none)).2.allocator_init =
      some (HEAP_START, HEAP_SIZE) ∧
    (HEAP_START / 4096, PRESENT_WRITABLE) ∈
      (init_heap (fun _ => some 0) (fun _ _ => none)).2.mapped := by
  obtain ⟨h1, h2⟩ :=
    (init_heap_maps_before_init (fun _ => some 0) (fun _ _ => none)).1
      (init_heap (fun _ => some 0) (fun _ _ => none)).2 rfl
  exact ⟨h1, h2 HEAP_START (le_refl _) (by decide)⟩
